import Mathlib

/-!
Verification development for the `ecd_sample_prep` frame-synthesis and
cell-permutation engine.

The definitions below are a shallow embedding of the C++ source
(`main.cpp` of the repository): mutable byte buffers and the global
`lvdsTranslationTable` array are modelled as functions `Nat → α` updated
pointwise, sequential `for` loops become `List.foldl` over `List.range`,
fatal `exit(1)` / thrown exceptions become `Option` / `Except` results,
and the C unsigned integer types are modelled as `Nat` with explicit
reduction modulo `2^32` / `2^64` at the operations where the source
performs machine arithmetic (`u32` converts a C `int` value to the
`uint32_t` it becomes under C's conversion rules).
-/

/-- Number of cells in a single data row on the chip (`const int ROW_SIZE = 2048`). -/
def ROW_SIZE : Nat := 2048

/-- Modulus of the C `uint32_t` type. -/
def UINT32_MOD : Nat := 4294967296

/-- Modulus of the C `uint64_t` type. -/
def UINT64_MOD : Nat := 18446744073709551616

/-- Value of a C `int` expression after conversion to `uint32_t`
(two's complement conversion, i.e. reduction modulo `2^32`). -/
def u32 (x : Int) : Nat := (x % (4294967296 : Int)).toNat

/-- Value of a C `int` expression after conversion to `uint8_t`. -/
def u8 (x : Int) : Nat := (x % (256 : Int)).toNat

theorem u32_of_nonneg (x : Int) (h0 : 0 ≤ x) (h1 : x < 4294967296) :
    u32 x = x.toNat := by
  unfold u32
  rw [Int.emod_eq_of_lt h0 h1]

/-- Pointwise update of a buffer modelled as a function (`buf[k] = v`). -/
def upd {α : Type} (f : Nat → α) (k : Nat) (v : α) : Nat → α :=
  fun x => if x = k then v else f x

theorem upd_same {α : Type} (f : Nat → α) (k : Nat) (v : α) : upd f k v k = v := by
  simp [upd]

theorem upd_other {α : Type} (f : Nat → α) (k : Nat) (v : α) (x : Nat) (h : x ≠ k) :
    upd f k v x = f x := by
  simp [upd, h]

/-! ### Generic loop lemmas

A `for` loop is embedded as `(List.range n).foldl g t`.  The lemmas below
let us reason about such folds through invariants: an invariant preserved
by every iteration, and an invariant established at one distinguished
iteration `r₀` and preserved afterwards. -/

theorem find?_spec {α : Type} (l : List α) (p : α → Bool) (a : α) (h : l.find? p = some a) :
    p a = true ∧ a ∈ l :=
  ⟨List.find?_some h, List.mem_of_find?_eq_some h⟩

theorem find?_isSome_of_mem {α : Type} (l : List α) (p : α → Bool) (a : α)
    (ha : a ∈ l) (hp : p a = true) : (l.find? p).isSome :=
  List.find?_isSome.mpr ⟨a, ha, hp⟩

theorem foldl_invariant {α β : Type} (g : α → β → α) (P : α → Prop) :
    ∀ (l : List β) (t : α), (∀ i ∈ l, ∀ s, P s → P (g s i)) → P t → P (l.foldl g t) := by
  intro l
  induction l with
  | nil => intro t _ ht; exact ht
  | cons a l ih =>
    intro t hmem ht
    simp only [List.foldl_cons]
    exact ih (g t a) (fun i hi s hs => hmem i (List.mem_cons_of_mem a hi) s hs)
      (hmem a (List.mem_cons_self a l) t ht)

theorem range_foldl_establish {α : Type} (g : α → Nat → α) (P Q : α → Prop) (n r₀ : Nat)
    (h0 : r₀ < n)
    (hpre : ∀ i < r₀, ∀ s, Q s → Q (g s i))
    (hest : ∀ s, Q s → P (g s r₀))
    (hpost : ∀ i, r₀ < i → i < n → ∀ s, P s → P (g s i))
    (t : α) (hQ : Q t) : P ((List.range n).foldl g t) := by
  have hn : n = (r₀ + 1) + (n - (r₀ + 1)) := by omega
  rw [hn, List.range_add, List.foldl_append]
  have hr1 : List.range (r₀ + 1) = List.range r₀ ++ [r₀] := by
    simpa using List.range_succ r₀
  rw [hr1, List.foldl_append]
  have hQ' : Q ((List.range r₀).foldl g t) :=
    foldl_invariant g Q (List.range r₀)
      t (fun i hi s hs => hpre i (List.mem_range.mp hi) s hs) hQ
  have hP : P (List.foldl g ((List.range r₀).foldl g t) [r₀]) := by
    simpa using hest _ hQ'
  refine foldl_invariant g P _ _ ?_ hP
  intro i hi s hs
  rcases List.mem_map.mp hi with ⟨k, hk, rfl⟩
  have hk' := List.mem_range.mp hk
  exact hpost _ (by omega) (by omega) s hs

/-! ### The LVDS translation table (`createLvdsTranslationTable`)

The C global `int lvdsTranslationTable[ROW_SIZE]` is modelled as a
function `Nat → Option Nat`; an entry never written by the construction
stays `none`, so full population of the table is expressible.  The three
nested loops of `createLvdsTranslationTable` become three nested folds.
Source:

    for (int group = 0; group < 8; ++group) {
        int groupOffset = group * 256 + 63;
        for (int row = 0; row < 4; ++row) {
            int rowOffset = groupOffset + (row * 64);
            int cellValue = row * 512 + group;
            for (int i = 0; i < 64; ++i) {
                lvdsTranslationTable[rowOffset - i] = cellValue;
                cellValue = cellValue + 8;
            }
        }
    }
-/

/-- Innermost loop: `for (i = 0; i < 64; ++i) table[rowOffset - i] = cellValue; cellValue += 8`.
At iteration `i` the running `cellValue` equals `row * 512 + group + 8 * i`. -/
def fillRow (group row : Nat) (t : Nat → Option Nat) : Nat → Option Nat :=
  (List.range 64).foldl
    (fun t i => upd t (group * 256 + 63 + row * 64 - i) (some (row * 512 + group + 8 * i))) t

/-- Middle loop over the 4 sub-rows of a cell group. -/
def fillGroup (group : Nat) (t : Nat → Option Nat) : Nat → Option Nat :=
  (List.range 4).foldl (fun t row => fillRow group row t) t

/-- Outer loop over the 8 cell groups; the array starts fully unassigned. -/
def createLvdsTranslationTable : Nat → Option Nat :=
  (List.range 8).foldl (fun t group => fillGroup group t) (fun _ => none)

/-- The populated global `lvdsTranslationTable`. -/
def lvdsTranslationTable : Nat → Option Nat := createLvdsTranslationTable

/-- Closed form of the table entry at index `j` (derived; the bridge to the
loop-built table is `lvdsTranslationTable_eq`). -/
def tableFun (j : Nat) : Nat :=
  ((j % 256) / 64) * 512 + j / 256 + 8 * (63 - j % 64)

/-- Closed form of the inverse permutation. -/
def invFun (v : Nat) : Nat :=
  (v % 8) * 256 + (v / 512) * 64 + (63 - (v % 512) / 8)

theorem fillRow_hits (group row j : Nat) (hg : group < 8) (hr : row < 4)
    (hj : group * 256 + row * 64 ≤ j ∧ j < group * 256 + row * 64 + 64) :
    ∀ t, fillRow group row t j = some (row * 512 + group + 8 * (group * 256 + 63 + row * 64 - j)) := by
  intro t
  unfold fillRow
  refine range_foldl_establish _ (fun t => t j = some (row * 512 + group + 8 * (group * 256 + 63 + row * 64 - j)))
    (fun _ => True) 64 (group * 256 + 63 + row * 64 - j) (by omega)
    (fun _ _ _ _ => trivial) ?_ ?_ t trivial
  · intro s _
    have hk : group * 256 + 63 + row * 64 - (group * 256 + 63 + row * 64 - j) = j := by omega
    rw [hk]
    exact upd_same _ _ _
  · intro i hi hi64 s hs
    have hne : j ≠ group * 256 + 63 + row * 64 - i := by omega
    rw [upd_other _ _ _ _ hne]
    exact hs

theorem fillRow_misses (group row j : Nat)
    (hj : j < group * 256 + row * 64 ∨ group * 256 + row * 64 + 64 ≤ j) :
    ∀ t v, t j = v → fillRow group row t j = v := by
  intro t v ht
  unfold fillRow
  refine foldl_invariant _ (fun t => t j = v) _ t ?_ ht
  intro i hi s hs
  have hi64 := List.mem_range.mp hi
  have hne : j ≠ group * 256 + 63 + row * 64 - i := by omega
  rw [upd_other _ _ _ _ hne]
  exact hs

theorem fillGroup_hits (group j : Nat) (hg : group < 8)
    (hj : group * 256 ≤ j ∧ j < group * 256 + 256) :
    ∀ t, fillGroup group t j = some (tableFun j) := by
  intro t
  have hrow : (j % 256) / 64 < 4 := by omega
  set r := (j % 256) / 64 with hr
  have hjr : group * 256 + r * 64 ≤ j ∧ j < group * 256 + r * 64 + 64 := by
    constructor <;> omega
  unfold fillGroup
  refine range_foldl_establish _ (fun t => t j = some (tableFun j)) (fun _ => True) 4 r hrow
    (fun _ _ _ _ => trivial) ?_ ?_ t trivial
  · intro s _
    have h := fillRow_hits group r j hg hrow hjr s
    rw [h]
    have : tableFun j = r * 512 + group + 8 * (group * 256 + 63 + r * 64 - j) := by
      unfold tableFun
      omega
    rw [this]
  · intro row hlt hrow4 s hs
    refine fillRow_misses group row j ?_ s _ hs
    left
    omega

theorem fillGroup_misses (group j : Nat)
    (hj : j < group * 256 ∨ group * 256 + 256 ≤ j) :
    ∀ t v, t j = v → fillGroup group t j = v := by
  intro t v ht
  unfold fillGroup
  refine foldl_invariant _ (fun t => t j = v) _ t ?_ ht
  intro row hrow s hs
  have hrow4 := List.mem_range.mp hrow
  refine fillRow_misses group row j ?_ s _ hs
  omega

/-- Bridge: the loop-built table agrees with the closed form on `[0, ROW_SIZE)`. -/
theorem lvdsTranslationTable_eq (j : Nat) (hj : j < ROW_SIZE) :
    lvdsTranslationTable j = some (tableFun j) := by
  have hg : j / 256 < 8 := by
    unfold ROW_SIZE at hj; omega
  set g := j / 256 with hgdef
  have hjg : g * 256 ≤ j ∧ j < g * 256 + 256 := by constructor <;> omega
  unfold lvdsTranslationTable createLvdsTranslationTable
  refine range_foldl_establish _ (fun t : Nat → Option Nat => t j = some (tableFun j)) (fun _ => True) 8 g hg
    (fun _ _ _ _ => trivial) ?_ ?_ _ trivial
  · intro s _
    exact fillGroup_hits g j hg hjg s
  · intro group hlt hlt8 s hs
    refine fillGroup_misses group j ?_ s _ hs
    left
    omega

theorem tableFun_lt : ∀ j < 2048, tableFun j < 2048 := by
  intro j hj
  unfold tableFun
  omega

theorem tableFun_decomp (g r w : Nat) (hg : g < 8) (hr : r < 4) (hw : w < 64) :
    tableFun (g * 256 + r * 64 + w) = r * 512 + g + 8 * (63 - w) := by
  unfold tableFun
  omega

theorem invFun_decomp (g r w : Nat) (hg : g < 8) (hr : r < 4) (hw : w < 64) :
    invFun (r * 512 + g + 8 * (63 - w)) = g * 256 + r * 64 + w := by
  unfold invFun
  omega

theorem invFun_tableFun : ∀ j < 2048, invFun (tableFun j) = j := by
  intro j hj
  have hdec : j = (j / 256) * 256 + ((j % 256) / 64) * 64 + j % 64 := by omega
  have htf : tableFun j = ((j % 256) / 64) * 512 + j / 256 + 8 * (63 - j % 64) := rfl
  rw [htf]
  rw [invFun_decomp (j / 256) ((j % 256) / 64) (j % 64) (by omega) (by omega) (by omega)]
  omega

theorem tableFun_invFun : ∀ i < 2048, invFun i < 2048 ∧ tableFun (invFun i) = i := by
  intro i hi
  have hiv : invFun i = (i % 8) * 256 + (i / 512) * 64 + (63 - (i % 512) / 8) := rfl
  have h1 : (i % 512) / 8 < 64 := by omega
  have h2 : 63 - (i % 512) / 8 < 64 := by omega
  constructor
  · rw [hiv]; omega
  · rw [hiv]
    rw [tableFun_decomp (i % 8) (i / 512) (63 - (i % 512) / 8) (by omega) (by omega) h2]
    omega

/-! ### Inverse lookup and the row reorder (`findLvdsCellOffset`, `reorderForLvds`) -/

/-- Linear search of the translation table for a raw cell offset
(`findLvdsCellOffset`); `none` models the fatal
"BUG: findLvdsCellOffset with invalid cell offset" branch. -/
def findLvdsCellOffset (rawCellOffset : Nat) : Option Nat :=
  (List.range ROW_SIZE).find? (fun i => lvdsTranslationTable i == some rawCellOffset)

/-- Reading `lvdsTranslationTable[i]` as the C code does (an `int`; the
construction has assigned every in-range entry, so the default is never
seen on `[0, ROW_SIZE)`). -/
def lvdsTableEntry (i : Nat) : Nat := (lvdsTranslationTable i).getD 0

/-- Effect of one iteration of the row loop of `reorderForLvds` on the frame:
positions of row `row` receive `rawRow[lvdsTranslationTable[i]]`
(the row is first copied into `lvdsRow` and then copied back, so the
values read are the row's values before the iteration), all other
positions are untouched. -/
def reorderRow (row : Nat) (frame : Nat → Nat) : Nat → Nat :=
  fun pos =>
    if row * ROW_SIZE ≤ pos ∧ pos < row * ROW_SIZE + ROW_SIZE then
      frame (row * ROW_SIZE + lvdsTableEntry (pos - row * ROW_SIZE))
    else frame pos

/-- `reorderForLvds`: translate each of the `cells_per_frame / ROW_SIZE`
rows of the frame from raw order to LVDS order. -/
def reorderForLvds (cells_per_frame : Nat) (frame : Nat → Nat) : Nat → Nat :=
  (List.range (cells_per_frame / ROW_SIZE)).foldl (fun f row => reorderRow row f) frame

theorem lvdsTableEntry_eq (i : Nat) (hi : i < ROW_SIZE) : lvdsTableEntry i = tableFun i := by
  unfold lvdsTableEntry
  rw [lvdsTranslationTable_eq i hi]
  rfl

theorem lvdsTableEntry_lt (i : Nat) (hi : i < ROW_SIZE) : lvdsTableEntry i < ROW_SIZE := by
  rw [lvdsTableEntry_eq i hi]
  exact tableFun_lt i hi

/-- Core property of the row reorder: the output at position
`row * ROW_SIZE + i` is the input at position
`row * ROW_SIZE + lvdsTableEntry i`; rows are handled independently. -/
theorem reorderForLvds_apply (cpf : Nat) (frame : Nat → Nat) (row i : Nat)
    (hrow : row < cpf / ROW_SIZE) (hi : i < ROW_SIZE) :
    reorderForLvds cpf frame (row * ROW_SIZE + i) =
      frame (row * ROW_SIZE + lvdsTableEntry i) := by
  have he : lvdsTableEntry i < ROW_SIZE := lvdsTableEntry_lt i hi
  unfold reorderForLvds
  refine range_foldl_establish _
    (fun f : Nat → Nat => f (row * ROW_SIZE + i) = frame (row * ROW_SIZE + lvdsTableEntry i))
    (fun f : Nat → Nat => f (row * ROW_SIZE + lvdsTableEntry i) = frame (row * ROW_SIZE + lvdsTableEntry i))
    (cpf / ROW_SIZE) row hrow ?_ ?_ ?_ frame rfl
  · intro r hr f hf
    unfold reorderRow
    have hcond : ¬(r * ROW_SIZE ≤ row * ROW_SIZE + lvdsTableEntry i ∧
        row * ROW_SIZE + lvdsTableEntry i < r * ROW_SIZE + ROW_SIZE) := by
      unfold ROW_SIZE at *
      omega
    rw [if_neg hcond]
    exact hf
  · intro f hf
    unfold reorderRow
    have hcond : row * ROW_SIZE ≤ row * ROW_SIZE + i ∧
        row * ROW_SIZE + i < row * ROW_SIZE + ROW_SIZE := by omega
    rw [if_pos hcond]
    have : row * ROW_SIZE + i - row * ROW_SIZE = i := by omega
    rw [this]
    exact hf
  · intro r hr hr2 f hf
    unfold reorderRow
    have hcond : ¬(r * ROW_SIZE ≤ row * ROW_SIZE + i ∧
        row * ROW_SIZE + i < r * ROW_SIZE + ROW_SIZE) := by
      unfold ROW_SIZE at *
      omega
    rw [if_neg hcond]
    exact hf

/-! ### Claim C1 -/

/-- Claim C1: the permutation table built by `createLvdsTranslationTable` is a
bijection on `[0, ROW_SIZE)` with `ROW_SIZE = 2048`: every entry is assigned
(no default entries) with a value in range, and for every `i` in `[0, 2048)`
there is exactly one `j` in `[0, 2048)` with `table[j] == i`. -/
theorem createLvdsTranslationTable_bijective :
    (∀ j, j < ROW_SIZE → ∃ v, v < ROW_SIZE ∧ createLvdsTranslationTable j = some v) ∧
    (∀ i, i < ROW_SIZE → ∃! j, j < ROW_SIZE ∧ createLvdsTranslationTable j = some i) := by
  constructor
  · intro j hj
    exact ⟨tableFun j, tableFun_lt j hj, lvdsTranslationTable_eq j hj⟩
  · intro i hi
    obtain ⟨hlt, heq⟩ := tableFun_invFun i hi
    refine ⟨invFun i, ⟨hlt, ?_⟩, ?_⟩
    · show lvdsTranslationTable (invFun i) = some i
      rw [lvdsTranslationTable_eq (invFun i) hlt, heq]
    · rintro j ⟨hjlt, hjeq⟩
      have hjeq' : lvdsTranslationTable j = some i := hjeq
      rw [lvdsTranslationTable_eq j hjlt] at hjeq'
      have htj : tableFun j = i := Option.some.inj hjeq'
      have hinj := invFun_tableFun j hjlt
      rw [htj] at hinj
      omega

theorem createLvdsTranslationTable_bijective_witness :
    (∃ v, v < ROW_SIZE ∧ createLvdsTranslationTable 1500 = some v) ∧
    (∃! j, j < ROW_SIZE ∧ createLvdsTranslationTable j = some 1500) :=
  ⟨createLvdsTranslationTable_bijective.1 1500 (by decide),
   createLvdsTranslationTable_bijective.2 1500 (by decide)⟩

/-! ### Claim C4 -/

/-- Claim C4: for every raw in-row offset `r` in `[0, 2048)` the inverse
lookup `findLvdsCellOffset` succeeds (the fatal internal-invariant branch is
unreachable), satisfies `table[findLvdsCellOffset(r)] == r`, and for a frame
transformed by `reorderForLvds`, position `findLvdsCellOffset(r)` of a row of
the transformed frame holds the value the raw frame held at offset `r` of
that row. -/
theorem findLvdsCellOffset_roundtrip :
    ∀ r, r < ROW_SIZE → ∃ j, findLvdsCellOffset r = some j ∧ j < ROW_SIZE ∧
      lvdsTranslationTable j = some r ∧
      ∀ (cpf : Nat) (frame : Nat → Nat) (row : Nat), cpf % ROW_SIZE = 0 →
        row < cpf / ROW_SIZE →
        reorderForLvds cpf frame (row * ROW_SIZE + j) = frame (row * ROW_SIZE + r) := by
  intro r hr
  obtain ⟨hlt, heq⟩ := tableFun_invFun r hr
  have hmem : invFun r ∈ List.range ROW_SIZE := List.mem_range.mpr hlt
  have hpred : (lvdsTranslationTable (invFun r) == some r) = true := by
    rw [lvdsTranslationTable_eq (invFun r) hlt, heq]
    exact beq_self_eq_true _
  have hsome : ((List.range ROW_SIZE).find? (fun i => lvdsTranslationTable i == some r)).isSome :=
    find?_isSome_of_mem _ _ (invFun r) hmem hpred
  obtain ⟨j, hj⟩ := Option.isSome_iff_exists.mp hsome
  obtain ⟨hjpred, hjmem⟩ := find?_spec _ _ j hj
  have hjlt : j < ROW_SIZE := List.mem_range.mp hjmem
  have hjeq : lvdsTranslationTable j = some r := eq_of_beq hjpred
  have hjfind : findLvdsCellOffset r = some j := by
    unfold findLvdsCellOffset
    exact hj
  refine ⟨j, hjfind, hjlt, hjeq, ?_⟩
  intro cpf frame row _ hrow
  rw [reorderForLvds_apply cpf frame row j hrow hjlt]
  have : lvdsTableEntry j = r := by
    unfold lvdsTableEntry
    rw [hjeq]
    rfl
  rw [this]

theorem findLvdsCellOffset_roundtrip_witness :
    504 < ROW_SIZE ∧ ∃ j, findLvdsCellOffset 504 = some j ∧ j < ROW_SIZE ∧
      lvdsTranslationTable j = some 504 ∧
      ∀ (cpf : Nat) (frame : Nat → Nat) (row : Nat), cpf % ROW_SIZE = 0 →
        row < cpf / ROW_SIZE →
        reorderForLvds cpf frame (row * ROW_SIZE + j) = frame (row * ROW_SIZE + 504) :=
  ⟨by decide, findLvdsCellOffset_roundtrip 504 (by decide)⟩

/-! ### Claim C5 -/

/-- Claim C5: for a frame whose length is a multiple of `ROW_SIZE`,
`reorderForLvds` transforms each row independently: the output at
`row * 2048 + i` is the input at `row * 2048 + table[i]`, and the result on
row `row` depends only on the input cells of row `row`. -/
theorem reorderForLvds_rowwise (cpf : Nat) (frame : Nat → Nat) (row i : Nat)
    (hm : cpf % ROW_SIZE = 0) (hrow : row < cpf / ROW_SIZE) (hi : i < ROW_SIZE) :
    (lvdsTranslationTable i).isSome ∧
    reorderForLvds cpf frame (row * ROW_SIZE + i) =
      frame (row * ROW_SIZE + (lvdsTranslationTable i).getD 0) ∧
    ∀ frame2 : Nat → Nat,
      (∀ k, k < ROW_SIZE → frame (row * ROW_SIZE + k) = frame2 (row * ROW_SIZE + k)) →
      reorderForLvds cpf frame (row * ROW_SIZE + i) =
        reorderForLvds cpf frame2 (row * ROW_SIZE + i) := by
  refine ⟨?_, ?_, ?_⟩
  · rw [lvdsTranslationTable_eq i hi]
    rfl
  · exact reorderForLvds_apply cpf frame row i hrow hi
  · intro frame2 hagree
    rw [reorderForLvds_apply cpf frame row i hrow hi,
        reorderForLvds_apply cpf frame2 row i hrow hi]
    exact hagree (lvdsTableEntry i) (lvdsTableEntry_lt i hi)

theorem reorderForLvds_rowwise_witness :
    (lvdsTranslationTable 0).isSome ∧
    reorderForLvds 2048 (fun p => p) (0 * ROW_SIZE + 0) =
      (fun p => p : Nat → Nat) (0 * ROW_SIZE + (lvdsTranslationTable 0).getD 0) ∧
    ∀ frame2 : Nat → Nat,
      (∀ k, k < ROW_SIZE → (fun p => p : Nat → Nat) (0 * ROW_SIZE + k) = frame2 (0 * ROW_SIZE + k)) →
      reorderForLvds 2048 (fun p => p) (0 * ROW_SIZE + 0) =
        reorderForLvds 2048 frame2 (0 * ROW_SIZE + 0) :=
  reorderForLvds_rowwise 2048 (fun p => p) 0 0 (by decide) (by decide) (by decide)

/-! ### Distribution records and `buildDataFrame`

`struct distribution_t { int first, last, step; vector<uint8_t> cellValue; }`.
The cell loop of `buildDataFrame` is

    for (uint32_t cellNumber = dr.first-1; cellNumber < dr.last; cellNumber += dr.step)
        frame[cellNumber] = dr.cellValue[frameNumber];

`cellNumber` is a `uint32_t`, so the `int` fields `first`, `last` and `step`
take part through C's int-to-unsigned conversion (`u32`), and the increment
wraps modulo `2^32`.  The loop is embedded with fuel `u32 last`: each
iteration runs under the guard `cellNumber < u32 last` and increases
`cellNumber` by at least 1 whenever no wraparound occurs, so under the
no-wraparound hypotheses used below the fuel is never exhausted. -/

structure distribution_t where
  first : Int
  last : Int
  step : Int
  cellValue : List Nat

/-- The sequence of cell indices visited by the write loop, starting at
`cell`, with fuel `fuel`. -/
def progAux : Nat → Nat → Nat → Nat → List Nat
  | 0, _, _, _ => []
  | fuel + 1, cell, last, step =>
    if cell < last then cell :: progAux fuel ((cell + step) % UINT32_MOD) last step else []

/-- Cell indices written by one distribution record's loop
(`cellNumber = first-1; cellNumber < last; cellNumber += step`, all in
`uint32_t` arithmetic). -/
def cellProgression (first1 last step : Nat) : List Nat :=
  progAux last first1 last step

/-- The set of cells a `distribution_t` record writes. -/
def recordCells (dr : distribution_t) : List Nat :=
  cellProgression (u32 (dr.first - 1)) (u32 dr.last) (u32 dr.step)

/-- One iteration of the record loop of `buildDataFrame`: a record whose
`cellValue` sequence contains a value for this frame number writes that value
into each cell of its progression, in order. -/
def applyRecord (frameNumber : Nat) (frame : Nat → Nat) (dr : distribution_t) : Nat → Nat :=
  if frameNumber < dr.cellValue.length then
    (recordCells dr).foldl (fun f c => upd f c (dr.cellValue.getD frameNumber 0)) frame
  else frame

/-- `buildDataFrame`: memset the frame to `quiescent`, then apply every
distribution record in list order. -/
def buildDataFrame (quiescent : Nat) (distributionList : List distribution_t)
    (frameNumber : Nat) : Nat → Nat :=
  distributionList.foldl (applyRecord frameNumber) (fun _ => quiescent)

theorem progAux_succ (fuel cell last step : Nat) (h : 0 < fuel) :
    progAux fuel cell last step =
      if cell < last then cell :: progAux (fuel - 1) ((cell + step) % UINT32_MOD) last step
      else [] := by
  obtain ⟨fuel', rfl⟩ : ∃ f, fuel = f + 1 := ⟨fuel - 1, by omega⟩
  simp [progAux]

/-- Every visited cell is below the loop bound (each write is guarded by
`cellNumber < last`). -/
theorem progAux_lt_last :
    ∀ (fuel cell last step x : Nat), x ∈ progAux fuel cell last step → x < last := by
  intro fuel
  induction fuel with
  | zero => intro cell last step x hx; simp [progAux] at hx
  | succ fuel ih =>
    intro cell last step x hx
    simp only [progAux] at hx
    by_cases h : cell < last
    · rw [if_pos h] at hx
      rcases List.mem_cons.mp hx with rfl | hx'
      · exact h
      · exact ih _ _ _ _ hx'
    · rw [if_neg h] at hx
      simp at hx

/-- Characterization of the visited cells when no `uint32_t` wraparound can
occur: they are exactly the arithmetic progression
`cell, cell + step, cell + 2*step, …` below `last`. -/
theorem progAux_mem (fuel : Nat) :
    ∀ (cell last step x : Nat), 1 ≤ step → last + step ≤ UINT32_MOD → last ≤ fuel + cell →
      (x ∈ progAux fuel cell last step ↔ ∃ k, x = cell + k * step ∧ x < last) := by
  induction fuel with
  | zero =>
    intro cell last step x hstep hwrap hfuel
    simp only [progAux, List.not_mem_nil, false_iff]
    rintro ⟨k, rfl, hlt⟩
    have : cell ≤ cell + k * step := Nat.le_add_right _ _
    omega
  | succ fuel ih =>
    intro cell last step x hstep hwrap hfuel
    simp only [progAux]
    by_cases h : cell < last
    · rw [if_pos h]
      have hmod : (cell + step) % UINT32_MOD = cell + step := by
        apply Nat.mod_eq_of_lt
        unfold UINT32_MOD at *
        omega
      rw [hmod]
      have ihx := ih (cell + step) last step x hstep hwrap (by omega)
      constructor
      · intro hx
        rcases List.mem_cons.mp hx with rfl | hx'
        · exact ⟨0, by omega, h⟩
        · obtain ⟨k, hk, hlt⟩ := ihx.mp hx'
          exact ⟨k + 1, by rw [hk, Nat.succ_mul]; omega, hlt⟩
      · rintro ⟨k, hk, hlt⟩
        cases k with
        | zero =>
          have : x = cell := by omega
          exact this ▸ List.mem_cons_self _ _
        | succ k =>
          refine List.mem_cons_of_mem _ (ihx.mpr ⟨k, ?_, hlt⟩)
          rw [hk, Nat.succ_mul]
          omega
    · rw [if_neg h]
      simp only [List.not_mem_nil, false_iff]
      rintro ⟨k, rfl, hlt⟩
      have : cell ≤ cell + k * step := Nat.le_add_right _ _
      omega

/-- Whether a record covers a cell on the claim's arithmetic-progression
reading: the cell is one of `firstCell-1, firstCell-1+step, …` and lies
strictly below `lastCell`. -/
def covers (dr : distribution_t) (cell : Nat) : Prop :=
  ∃ k : Nat, (cell : Int) = dr.first - 1 + k * dr.step ∧ (cell : Int) < dr.last

/-- Record hypotheses of claim C2 together with the bounds that rule out
`uint32_t` wraparound inside the write loop (`0 ≤ last` and
`last + step ≤ 2^32`; see the counterexample below for why they are needed). -/
def recordOK (cpf : Nat) (dr : distribution_t) : Prop :=
  1 ≤ dr.first ∧ dr.first ≤ (cpf : Int) ∧ 0 ≤ dr.last ∧ dr.last ≤ (cpf : Int) ∧
    1 ≤ dr.step ∧ dr.step ≤ 2147483647 ∧ dr.last + dr.step ≤ 4294967296

theorem recordCells_mem (cpf : Nat) (dr : distribution_t) (hcpf : cpf < UINT32_MOD)
    (h : recordOK cpf dr) (x : Nat) :
    x ∈ recordCells dr ↔ covers dr x := by
  obtain ⟨h1, h2, h3, h4, h5, h6, h7⟩ := h
  unfold UINT32_MOD at hcpf
  have hcpf' : (cpf : Int) < 4294967296 := by
    exact_mod_cast hcpf
  have hu1 : u32 (dr.first - 1) = (dr.first - 1).toNat :=
    u32_of_nonneg _ (by omega) (by omega)
  have hu2 : u32 dr.last = dr.last.toNat := u32_of_nonneg _ (by omega) (by omega)
  have hu3 : u32 dr.step = dr.step.toNat := u32_of_nonneg _ (by omega) (by omega)
  unfold recordCells cellProgression
  rw [hu1, hu2, hu3]
  rw [progAux_mem dr.last.toNat ((dr.first - 1).toNat) dr.last.toNat dr.step.toNat x
      (by omega) (by unfold UINT32_MOD; omega) (by omega)]
  unfold covers
  constructor
  · rintro ⟨k, hk, hlt⟩
    refine ⟨k, ?_, by omega⟩
    have : (x : Int) = ((dr.first - 1).toNat : Int) + k * (dr.step.toNat : Int) := by
      exact_mod_cast congrArg (Nat.cast : Nat → Int) hk
    rw [Int.toNat_of_nonneg (by omega), Int.toNat_of_nonneg (by omega)] at this
    exact this
  · rintro ⟨k, hk, hlt⟩
    refine ⟨k, ?_, by omega⟩
    have hx : (x : Int) = ((dr.first - 1).toNat : Int) + k * (dr.step.toNat : Int) := by
      rw [Int.toNat_of_nonneg (by omega), Int.toNat_of_nonneg (by omega)]
      exact hk
    exact_mod_cast hx

theorem progAux_empty (fuel cell last step : Nat) (h : last ≤ cell) :
    progAux fuel cell last step = [] := by
  cases fuel with
  | zero => rfl
  | succ fuel => simp only [progAux]; rw [if_neg (by omega)]

theorem foldl_upd_const (L : List Nat) :
    ∀ (f : Nat → Nat) (v x : Nat),
      (L.foldl (fun f c => upd f c v) f) x = if x ∈ L then v else f x := by
  induction L with
  | nil => intro f v x; simp
  | cons c L ih =>
    intro f v x
    simp only [List.foldl_cons]
    rw [ih]
    by_cases h : x ∈ L
    · rw [if_pos h, if_pos (List.mem_cons_of_mem c h)]
    · rw [if_neg h]
      by_cases h2 : x = c
      · subst h2
        rw [upd_same, if_pos (List.mem_cons_self _ _)]
      · rw [upd_other _ _ _ _ h2, if_neg (by simp [List.mem_cons, h, h2])]

/-- Pointwise effect of one distribution record on the frame. -/
theorem applyRecord_apply (n : Nat) (f : Nat → Nat) (dr : distribution_t) (x : Nat) :
    applyRecord n f dr x =
      if n < dr.cellValue.length ∧ x ∈ recordCells dr then dr.cellValue.getD n 0
      else f x := by
  unfold applyRecord
  by_cases h1 : n < dr.cellValue.length
  · rw [if_pos h1, foldl_upd_const]
    by_cases h2 : x ∈ recordCells dr
    · rw [if_pos h2, if_pos ⟨h1, h2⟩]
    · rw [if_neg h2, if_neg (fun hc => h2 hc.2)]
  · rw [if_neg h1, if_neg (fun hc => h1 hc.1)]

theorem applyRecord_skip (n : Nat) (f : Nat → Nat) (dr : distribution_t)
    (h : dr.cellValue.length ≤ n) : applyRecord n f dr = f := by
  unfold applyRecord
  rw [if_neg (by omega)]

/-! ### Claim C2 -/

/-- Claim C2 (amended): for records with `1 ≤ firstCell ≤ cells_per_frame`,
`0 ≤ lastCell ≤ cells_per_frame` and `1 ≤ step` small enough that the
`uint32_t` loop variable cannot wrap (`recordOK`), `buildDataFrame` yields:
a cell covered by no record equals `quiescent`; a record whose `values`
sequence has length `≤ n` contributes nothing; and the last record in list
order that covers a cell (among those with a value for frame `n`)
determines that cell's byte (last-write-wins). -/
theorem buildDataFrame_characterization (cpf q n : Nat) (l : List distribution_t)
    (hcpf : cpf < UINT32_MOD) (hl : ∀ dr ∈ l, recordOK cpf dr)
    (cell : Nat) (hcell : cell < cpf) :
    ((∀ dr ∈ l, n < dr.cellValue.length → ¬ covers dr cell) →
        buildDataFrame q l n cell = q) ∧
    (∀ l₁ dr l₂, l = l₁ ++ dr :: l₂ → dr.cellValue.length ≤ n →
        buildDataFrame q l n cell = buildDataFrame q (l₁ ++ l₂) n cell) ∧
    (∀ l₁ dr l₂, l = l₁ ++ dr :: l₂ → n < dr.cellValue.length → covers dr cell →
        (∀ dr2 ∈ l₂, n < dr2.cellValue.length → ¬ covers dr2 cell) →
        buildDataFrame q l n cell = dr.cellValue.getD n 0) := by
  refine ⟨?_, ?_, ?_⟩
  · intro hnone
    unfold buildDataFrame
    refine foldl_invariant _ (fun f : Nat → Nat => f cell = q) l _ ?_ rfl
    intro dr hdr f hf
    rw [applyRecord_apply]
    rw [if_neg]
    · exact hf
    · rintro ⟨hlen, hmem⟩
      exact hnone dr hdr hlen ((recordCells_mem cpf dr hcpf (hl dr hdr) cell).mp hmem)
  · intro l₁ dr l₂ hsplit hshort
    subst hsplit
    unfold buildDataFrame
    rw [List.foldl_append, List.foldl_append, List.foldl_cons,
        applyRecord_skip n _ dr hshort]
  · intro l₁ dr l₂ hsplit hlen hcov hlater
    subst hsplit
    unfold buildDataFrame
    rw [List.foldl_append, List.foldl_cons]
    refine foldl_invariant _ (fun f : Nat → Nat => f cell = dr.cellValue.getD n 0) l₂ _ ?_ ?_
    · intro dr2 hdr2 f hf
      rw [applyRecord_apply, if_neg]
      · exact hf
      · rintro ⟨hlen2, hmem2⟩
        have hdr2' : dr2 ∈ l₁ ++ dr :: l₂ := by
          refine List.mem_append.mpr (Or.inr (List.mem_cons_of_mem dr hdr2))
        exact hlater dr2 hdr2 hlen2
          ((recordCells_mem cpf dr2 hcpf (hl dr2 hdr2') cell).mp hmem2)
    · show applyRecord n (List.foldl (applyRecord n) (fun _ => q) l₁) dr cell =
        dr.cellValue.getD n 0
      rw [applyRecord_apply, if_pos]
      refine ⟨hlen, ?_⟩
      have hdr : dr ∈ l₁ ++ dr :: l₂ :=
        List.mem_append.mpr (Or.inr (List.mem_cons_self dr l₂))
      exact (recordCells_mem cpf dr hcpf (hl dr hdr) cell).mpr hcov

theorem buildDataFrame_characterization_witness :
    buildDataFrame 0 [⟨1, 5, 2, [7, 8]⟩] 0 2 = 7 := by
  have h := (buildDataFrame_characterization 2048 0 0 [⟨1, 5, 2, [7, 8]⟩]
    (by norm_num [UINT32_MOD])
    (by
      intro dr hdr
      rw [List.mem_singleton] at hdr
      subst hdr
      exact ⟨by norm_num, by norm_num, by norm_num, by norm_num, by norm_num,
        by norm_num, by norm_num⟩)
    2 (by norm_num)).2.2 [] ⟨1, 5, 2, [7, 8]⟩ [] rfl (by norm_num)
    ⟨1, by norm_num, by norm_num⟩ (by intro dr2 hdr2; simp at hdr2)
  simpa using h

/-- The record of the C2 counterexample: a negative `lastCell`, admitted by
the claim's hypothesis `lastCell ≤ cells_per_frame`. -/
def cexRecordC2 : distribution_t := ⟨2048, -2, 1, [1]⟩

/-- Claim C2 as stated is false on the code: with `cells_per_frame = 2048`,
`quiescent = 0` and the single record `{first = 2048, last = -2, step = 1,
values = [1]}` — which satisfies every hypothesis the claim lists
(`1 ≤ firstCell ≤ cells_per_frame`, `lastCell ≤ cells_per_frame`,
`step ≥ 1`) — cell 2047 is covered by no record on the claim's
arithmetic-progression reading (no index is `< lastCell = -2`), yet
`buildDataFrame` writes 1 there: the loop compares the `uint32_t` cell
counter against `(uint32_t)(-2) = 4294967294`, so the write loop runs. -/
theorem buildDataFrame_counterexample :
    (1 ≤ cexRecordC2.first ∧ cexRecordC2.first ≤ ((2048 : Nat) : Int) ∧
      cexRecordC2.last ≤ ((2048 : Nat) : Int) ∧ 1 ≤ cexRecordC2.step) ∧
    ¬ covers cexRecordC2 2047 ∧
    buildDataFrame 0 [cexRecordC2] 0 2047 = 1 ∧ (1 : Nat) ≠ 0 := by
  have hmem : (2047 : Nat) ∈ recordCells cexRecordC2 := by
    have h1 : u32 (cexRecordC2.first - 1) = 2047 := by decide
    have h2 : u32 cexRecordC2.last = 4294967294 := by decide
    have h3 : u32 cexRecordC2.step = 1 := by decide
    unfold recordCells cellProgression
    rw [h1, h2, h3]
    rw [progAux_succ _ _ _ _ (by norm_num), if_pos (by norm_num)]
    exact List.mem_cons_self _ _
  refine ⟨⟨by norm_num [cexRecordC2], by norm_num [cexRecordC2],
      by norm_num [cexRecordC2], by norm_num [cexRecordC2]⟩, ?_, ?_, by norm_num⟩
  · rintro ⟨k, hk, hlt⟩
    have : cexRecordC2.last = -2 := rfl
    rw [this] at hlt
    omega
  · unfold buildDataFrame
    rw [List.foldl_cons, List.foldl_nil, applyRecord_apply, if_pos]
    · rfl
    · exact ⟨by norm_num [cexRecordC2], hmem⟩

/-! ### Claim C10 -/

/-- Claim C10 (amended): under the hypotheses `1 ≤ firstCell ≤
cells_per_frame`, `lastCell ≤ cells_per_frame`, `step ≥ 1` together with
`0 ≤ lastCell` (forced by the counterexample below: the code converts
`lastCell` to `uint32_t` before comparing), every cell index the record's
write loop visits lies in `[0, cells_per_frame)`, and when
`lastCell < firstCell` the progression is empty and the record writes no
cells without raising any error. -/
theorem recordCells_bounds (cpf : Nat) (dr : distribution_t) (hcpf : cpf < UINT32_MOD)
    (h1 : 1 ≤ dr.first) (h2 : dr.first ≤ (cpf : Int)) (h3 : 0 ≤ dr.last)
    (h4 : dr.last ≤ (cpf : Int)) (h5 : 1 ≤ dr.step) :
    (∀ c ∈ recordCells dr, c < cpf) ∧
    (dr.last < dr.first →
      recordCells dr = [] ∧ ∀ n f, applyRecord n f dr = f) := by
  unfold UINT32_MOD at hcpf
  have hcpf' : (cpf : Int) < 4294967296 := by exact_mod_cast hcpf
  have hu2 : u32 dr.last = dr.last.toNat := u32_of_nonneg _ (by omega) (by omega)
  have hlastle : dr.last.toNat ≤ cpf := by omega
  constructor
  · intro c hc
    have := progAux_lt_last (u32 dr.last) (u32 (dr.first - 1)) (u32 dr.last) (u32 dr.step) c hc
    omega
  · intro hlt
    have hu1 : u32 (dr.first - 1) = (dr.first - 1).toNat :=
      u32_of_nonneg _ (by omega) (by omega)
    have hempty : recordCells dr = [] := by
      unfold recordCells cellProgression
      rw [hu1, hu2]
      exact progAux_empty _ _ _ _ (by omega)
    refine ⟨hempty, ?_⟩
    intro n f
    unfold applyRecord
    rw [hempty]
    split <;> rfl

theorem recordCells_bounds_witness :
    (∀ c ∈ recordCells ⟨5, 3, 1, []⟩, c < 2048) ∧
    ((⟨5, 3, 1, []⟩ : distribution_t).last < (⟨5, 3, 1, []⟩ : distribution_t).first →
      recordCells ⟨5, 3, 1, []⟩ = [] ∧ ∀ n f, applyRecord n f ⟨5, 3, 1, []⟩ = f) :=
  recordCells_bounds 2048 ⟨5, 3, 1, []⟩ (by norm_num [UINT32_MOD]) (by norm_num)
    (by norm_num) (by norm_num) (by norm_num) (by norm_num)

/-- The record of the C10 counterexample. -/
def cexRecordC10 : distribution_t := ⟨2048, -1, 1, [1]⟩

/-- Claim C10 as stated is false on the code: the record
`{first = 2048, last = -1, step = 1, values = [1]}` satisfies the claim's
hypotheses (`1 ≤ firstCell ≤ cells_per_frame = 2048`,
`lastCell ≤ cells_per_frame`, `step ≥ 1`) and has `lastCell < firstCell`,
so the claim asserts the progression is empty and every written index is
below `cells_per_frame`; but the write loop visits index 2048 (the
comparison is against `(uint32_t)(-1) = 4294967295`), an out-of-bounds
write past the frame buffer. -/
theorem recordCells_bounds_counterexample :
    (1 ≤ cexRecordC10.first ∧ cexRecordC10.first ≤ ((2048 : Nat) : Int) ∧
      cexRecordC10.last ≤ ((2048 : Nat) : Int) ∧ 1 ≤ cexRecordC10.step ∧
      cexRecordC10.last < cexRecordC10.first) ∧
    (2048 : Nat) ∈ recordCells cexRecordC10 ∧ ¬ ((2048 : Nat) < 2048) ∧
    recordCells cexRecordC10 ≠ [] := by
  have h1 : u32 (cexRecordC10.first - 1) = 2047 := by decide
  have h2 : u32 cexRecordC10.last = 4294967295 := by decide
  have h3 : u32 cexRecordC10.step = 1 := by decide
  have hmem : (2048 : Nat) ∈ recordCells cexRecordC10 := by
    unfold recordCells cellProgression
    rw [h1, h2, h3]
    rw [progAux_succ _ _ _ _ (by norm_num), if_pos (by norm_num)]
    refine List.mem_cons_of_mem _ ?_
    have hstep : (2047 + 1) % UINT32_MOD = 2048 := by norm_num [UINT32_MOD]
    rw [hstep]
    rw [progAux_succ _ _ _ _ (by norm_num), if_pos (by norm_num)]
    exact List.mem_cons_self _ _
  refine ⟨⟨by norm_num [cexRecordC10], by norm_num [cexRecordC10],
      by norm_num [cexRecordC10], by norm_num [cexRecordC10], by norm_num [cexRecordC10]⟩,
    hmem, by norm_num, ?_⟩
  intro hcontra
  rw [hcontra] at hmem
  simp at hmem

/-! ### Configuration, capacity planning (`verifyDistributionIsValid`) -/

/-- The configuration record (`struct config_t`); `cells_per_frame` and
`data_frames` are `uint32_t`, `contig_size` is `uint64_t`,
`diagnostic_values` is a vector of bytes, `quiescent` a byte. -/
structure config_t where
  cells_per_frame : Nat
  contig_size : Nat
  diagnostic_values : List Nat
  data_frames : Nat
  quiescent : Nat

/-- `findLongestSequence`: running maximum of `cellValue.size()` over the
distribution list (sequence lengths are assumed to fit `uint32_t`, as
required of the `size_t`-to-`uint32_t` store in the source). -/
def findLongestSequence (l : List distribution_t) : Nat :=
  l.foldl
    (fun longestLength dr =>
      if dr.cellValue.length > longestLength then dr.cellValue.length else longestLength) 0

/-- The quantities computed by `verifyDistributionIsValid`, in `uint32_t`
arithmetic (`totalContigReqd` in `uint64_t`). -/
structure planResult where
  maxFrames : Nat
  longestSequence : Nat
  frameGroupLength : Nat
  frameGroupCount : Nat
  totalReqdFrames : Nat
  totalContigReqd : Nat

def capacityPlan (cfg : config_t) (l : List distribution_t) : planResult :=
  let maxFrames := (cfg.contig_size / cfg.cells_per_frame) % UINT32_MOD
  let longestSequence := findLongestSequence l
  let frameGroupLength := (cfg.diagnostic_values.length + cfg.data_frames) % UINT32_MOD
  let frameGroupCount := (longestSequence / cfg.data_frames + 1) % UINT32_MOD
  let totalReqdFrames := (frameGroupCount * frameGroupLength) % UINT32_MOD
  let totalContigReqd := (totalReqdFrames * cfg.cells_per_frame) % UINT64_MOD
  ⟨maxFrames, longestSequence, frameGroupLength, frameGroupCount, totalReqdFrames,
    totalContigReqd⟩

theorem capacityPlan_frameGroupCount (cfg : config_t) (l : List distribution_t) :
    (capacityPlan cfg l).frameGroupCount =
      (findLongestSequence l / cfg.data_frames + 1) % UINT32_MOD := rfl

/-- `verifyDistributionIsValid`: `none` models `exit(1)`.  The
`cells_per_frame % ROW_SIZE` check is performed first; on success the
number of frame groups is returned. -/
def verifyDistributionIsValid (cfg : config_t) (l : List distribution_t) : Option Nat :=
  if cfg.cells_per_frame % ROW_SIZE ≠ 0 then none
  else
    let p := capacityPlan cfg l
    if p.totalReqdFrames > p.maxFrames then none else some p.frameGroupCount

/-! ### The output writer (`writeOutputFile`) -/

/-- The first `cpf` bytes of a frame buffer, as written by `fwrite(frame, 1,
cells_per_frame, ofile)`. -/
def frameToList (cpf : Nat) (f : Nat → Nat) : List Nat :=
  (List.range cpf).map f

/-- The bytes of data frame number `n` as written by the writer loop: the
raw frame built by `buildDataFrame`, passed through `reorderForLvds` unless
`-nolvds` was given. -/
def outputDataFrame (cfg : config_t) (nolvds : Bool) (l : List distribution_t)
    (n : Nat) : List Nat :=
  let raw := buildDataFrame cfg.quiescent l n
  let fr := if nolvds then raw else reorderForLvds cfg.cells_per_frame raw
  frameToList cfg.cells_per_frame fr

/-- The diagnostic-frame loop: one constant-filled frame per entry of
`diagnostic_values`, appended to the output stream. -/
def writeDiagFrames (cfg : config_t) (out : List Nat) : List Nat :=
  cfg.diagnostic_values.foldl
    (fun out v => out ++ List.replicate cfg.cells_per_frame v) out

/-- One iteration of the frame-group loop.  The state is the running
`frameNumber` counter and the byte stream written so far. -/
def writeFrameGroup (cfg : config_t) (nolvds : Bool) (l : List distribution_t)
    (st : Nat × List Nat) : Nat × List Nat :=
  let st1 : Nat × List Nat := (st.1, writeDiagFrames cfg st.2)
  (List.range cfg.data_frames).foldl
    (fun st _ => (st.1 + 1, st.2 ++ outputDataFrame cfg nolvds l st.1)) st1

/-- `writeOutputFile`: the byte stream of the whole run.  `frameNumber`
starts at 0 and is incremented across the entire run. -/
def writeOutputFile (cfg : config_t) (nolvds : Bool) (l : List distribution_t)
    (frameGroupCount : Nat) : List Nat :=
  ((List.range frameGroupCount).foldl (fun st _ => writeFrameGroup cfg nolvds l st)
    (0, [])).2

/-- The tail of `execute()`: validate the distribution, then (only on
success) write the output file. -/
def generateOutput (cfg : config_t) (nolvds : Bool) (l : List distribution_t) :
    Option (List Nat) :=
  match verifyDistributionIsValid cfg l with
  | none => none
  | some frameGroupCount => some (writeOutputFile cfg nolvds l frameGroupCount)

theorem findLongestSequence_eq (l : List distribution_t) :
    findLongestSequence l = (l.map (fun dr => dr.cellValue.length)).foldr max 0 := by
  have main : ∀ (l : List distribution_t) (a : Nat),
      l.foldl
        (fun longestLength dr =>
          if dr.cellValue.length > longestLength then dr.cellValue.length else longestLength) a =
      max a ((l.map (fun dr => dr.cellValue.length)).foldr max 0) := by
    intro l
    induction l with
    | nil => intro a; simp
    | cons dr l ih =>
      intro a
      simp only [List.foldl_cons, List.map_cons, List.foldr_cons]
      rw [ih]
      by_cases h : dr.cellValue.length > a
      · rw [if_pos h]; omega
      · rw [if_neg h]; omega
  unfold findLongestSequence
  rw [main]
  omega

/-- The bytes of one frame group whose first data frame is frame number `n`. -/
def frameGroupBytes (cfg : config_t) (nolvds : Bool) (l : List distribution_t)
    (n : Nat) : List Nat :=
  (cfg.diagnostic_values.map (fun v => List.replicate cfg.cells_per_frame v)).flatten ++
    ((List.range cfg.data_frames).map (fun i => outputDataFrame cfg nolvds l (n + i))).flatten

theorem writeDiagFrames_eq (cfg : config_t) : ∀ out : List Nat,
    writeDiagFrames cfg out =
      out ++ (cfg.diagnostic_values.map (fun v => List.replicate cfg.cells_per_frame v)).flatten := by
  unfold writeDiagFrames
  generalize cfg.diagnostic_values = ds
  induction ds with
  | nil => intro out; simp
  | cons v ds ih =>
    intro out
    simp only [List.foldl_cons, List.map_cons, List.flatten_cons]
    rw [ih]
    simp [List.append_assoc]

theorem dataFold_eq (cfg : config_t) (nolvds : Bool) (l : List distribution_t) :
    ∀ (m n : Nat) (out : List Nat),
      (List.range m).foldl
          (fun st _ => (st.1 + 1, st.2 ++ outputDataFrame cfg nolvds l st.1))
          ((n, out) : Nat × List Nat) =
        (n + m,
          out ++ ((List.range m).map (fun i => outputDataFrame cfg nolvds l (n + i))).flatten) := by
  intro m
  induction m with
  | zero => intro n out; simp
  | succ m ih =>
    intro n out
    have hr : List.range (m + 1) = List.range m ++ [m] := by
      simpa using List.range_succ m
    rw [hr, List.foldl_append, ih]
    simp only [List.foldl_cons, List.foldl_nil, List.map_append, List.map_cons,
      List.map_nil, List.flatten_append, List.flatten_cons, List.flatten_nil,
      List.append_nil, List.append_assoc, Prod.mk.injEq]
    exact ⟨by omega, trivial⟩

theorem writeFrameGroup_eq (cfg : config_t) (nolvds : Bool) (l : List distribution_t)
    (n : Nat) (out : List Nat) :
    writeFrameGroup cfg nolvds l (n, out) =
      (n + cfg.data_frames, out ++ frameGroupBytes cfg nolvds l n) := by
  unfold writeFrameGroup
  simp only
  rw [writeDiagFrames_eq, dataFold_eq]
  unfold frameGroupBytes
  simp [List.append_assoc]

theorem groupFold_eq (cfg : config_t) (nolvds : Bool) (l : List distribution_t) :
    ∀ fgc : Nat,
      (List.range fgc).foldl (fun st _ => writeFrameGroup cfg nolvds l st)
          ((0, []) : Nat × List Nat) =
        (fgc * cfg.data_frames,
          ((List.range fgc).map
            (fun g => frameGroupBytes cfg nolvds l (g * cfg.data_frames))).flatten) := by
  intro fgc
  induction fgc with
  | zero => simp
  | succ fgc ih =>
    have hr : List.range (fgc + 1) = List.range fgc ++ [fgc] := by
      simpa using List.range_succ fgc
    rw [hr, List.foldl_append, ih]
    simp only [List.foldl_cons, List.foldl_nil]
    rw [writeFrameGroup_eq]
    simp only [List.map_append, List.map_cons, List.map_nil, List.flatten_append,
      List.flatten_cons, List.flatten_nil, List.append_nil, Prod.mk.injEq]
    exact ⟨by rw [Nat.succ_mul], trivial⟩

/-! ### Claim C6 -/

/-- Claim C6: the byte stream written by `writeOutputFile` is exactly
`frameGroupCount` frame groups concatenated, with no header, footer or
metadata; each group is one diagnostic frame per entry of
`diagnostic_values`, filled with that constant, followed by `data_frames`
data frames; every frame is exactly `cells_per_frame` bytes; the frame
numbers passed to `buildDataFrame` are `g * data_frames + i`, i.e.
consecutive `0, 1, 2, …` across the whole run; each data frame is the
`buildDataFrame` output transformed by `reorderForLvds`, or in raw order
in the `-nolvds` mode. -/
theorem writeOutputFile_layout (cfg : config_t) (nolvds : Bool) (l : List distribution_t)
    (fgc : Nat) :
    writeOutputFile cfg nolvds l fgc =
      ((List.range fgc).map (fun g =>
        (cfg.diagnostic_values.map (fun v => List.replicate cfg.cells_per_frame v)).flatten ++
        ((List.range cfg.data_frames).map (fun i =>
          outputDataFrame cfg nolvds l (g * cfg.data_frames + i))).flatten)).flatten ∧
    (∀ n, (outputDataFrame cfg nolvds l n).length = cfg.cells_per_frame) ∧
    (∀ v : Nat, (List.replicate cfg.cells_per_frame v).length = cfg.cells_per_frame) ∧
    (nolvds = true → ∀ n, outputDataFrame cfg nolvds l n =
        frameToList cfg.cells_per_frame (buildDataFrame cfg.quiescent l n)) ∧
    (nolvds = false → ∀ n, outputDataFrame cfg nolvds l n =
        frameToList cfg.cells_per_frame
          (reorderForLvds cfg.cells_per_frame (buildDataFrame cfg.quiescent l n))) := by
  refine ⟨?_, ?_, ?_, ?_, ?_⟩
  · unfold writeOutputFile
    rw [groupFold_eq]
    unfold frameGroupBytes
    rfl
  · intro n
    unfold outputDataFrame frameToList
    simp
  · intro v
    exact List.length_replicate _ _
  · intro h n
    subst h
    rfl
  · intro h n
    subst h
    rfl

theorem writeOutputFile_layout_witness :
    writeOutputFile ⟨2, 7, [9], 1, 5⟩ true [] 1 = [9, 9, 5, 5] := by
  rw [(writeOutputFile_layout ⟨2, 7, [9], 1, 5⟩ true [] 1).1]
  rfl

/-! ### Claim C3 -/

/-- Claim C3 (amended): the capacity planner computes `longestSequence` as
the maximum values-sequence length (0 for an empty list),
`frameGroupLength = diagnostic values + data_frames`,
`frameGroupCount = longestSequence / data_frames + 1` by truncating integer
division (hence at least 1), `totalFrames = frameGroupCount *
frameGroupLength`, and `totalBytes = totalFrames * cells_per_frame` exactly
(the 64-bit product of two 32-bit quantities cannot overflow) — provided
`data_frames ≥ 1` and the intermediate quantities fit in 32 bits, since the
planner computes them in `uint32_t` arithmetic (see the counterexample for
the wraparound that the claim's unconditional wording misses). -/
theorem capacityPlan_arithmetic (cfg : config_t) (l : List distribution_t)
    (hdf : 1 ≤ cfg.data_frames)
    (hlens : ∀ dr ∈ l, dr.cellValue.length < UINT32_MOD)
    (hfgl : cfg.diagnostic_values.length + cfg.data_frames < UINT32_MOD)
    (hfgc : findLongestSequence l / cfg.data_frames + 1 < UINT32_MOD)
    (htot : (findLongestSequence l / cfg.data_frames + 1) *
        (cfg.diagnostic_values.length + cfg.data_frames) < UINT32_MOD)
    (hcpf : cfg.cells_per_frame < UINT32_MOD) :
    (capacityPlan cfg l).longestSequence =
        (l.map (fun dr => dr.cellValue.length)).foldr max 0 ∧
    (capacityPlan cfg l).frameGroupLength =
        cfg.diagnostic_values.length + cfg.data_frames ∧
    (capacityPlan cfg l).frameGroupCount =
        (capacityPlan cfg l).longestSequence / cfg.data_frames + 1 ∧
    1 ≤ (capacityPlan cfg l).frameGroupCount ∧
    (capacityPlan cfg l).totalReqdFrames =
        (capacityPlan cfg l).frameGroupCount * (capacityPlan cfg l).frameGroupLength ∧
    (capacityPlan cfg l).totalContigReqd =
        (capacityPlan cfg l).totalReqdFrames * cfg.cells_per_frame ∧
    (capacityPlan cfg l).totalContigReqd < UINT64_MOD := by
  have h1 : (capacityPlan cfg l).longestSequence = findLongestSequence l := rfl
  have h2 : (capacityPlan cfg l).frameGroupLength =
      (cfg.diagnostic_values.length + cfg.data_frames) % UINT32_MOD := rfl
  have h3 : (capacityPlan cfg l).frameGroupCount =
      (findLongestSequence l / cfg.data_frames + 1) % UINT32_MOD := rfl
  have h4 : (capacityPlan cfg l).totalReqdFrames =
      ((capacityPlan cfg l).frameGroupCount * (capacityPlan cfg l).frameGroupLength) %
        UINT32_MOD := rfl
  have h5 : (capacityPlan cfg l).totalContigReqd =
      ((capacityPlan cfg l).totalReqdFrames * cfg.cells_per_frame) % UINT64_MOD := rfl
  have e2 : (capacityPlan cfg l).frameGroupLength =
      cfg.diagnostic_values.length + cfg.data_frames := by
    rw [h2, Nat.mod_eq_of_lt hfgl]
  have e3 : (capacityPlan cfg l).frameGroupCount =
      findLongestSequence l / cfg.data_frames + 1 := by
    rw [h3, Nat.mod_eq_of_lt hfgc]
  have e4 : (capacityPlan cfg l).totalReqdFrames =
      (capacityPlan cfg l).frameGroupCount * (capacityPlan cfg l).frameGroupLength := by
    rw [h4, e2, e3, Nat.mod_eq_of_lt htot]
  have hreqlt : (capacityPlan cfg l).totalReqdFrames < UINT32_MOD := by
    rw [e4, e2, e3]
    exact htot
  have hprod : (capacityPlan cfg l).totalReqdFrames * cfg.cells_per_frame < UINT64_MOD := by
    have ha : (capacityPlan cfg l).totalReqdFrames ≤ 4294967295 := by
      unfold UINT32_MOD at hreqlt
      omega
    have hb : cfg.cells_per_frame ≤ 4294967295 := by
      unfold UINT32_MOD at hcpf
      omega
    calc (capacityPlan cfg l).totalReqdFrames * cfg.cells_per_frame
        ≤ 4294967295 * 4294967295 := Nat.mul_le_mul ha hb
      _ < UINT64_MOD := by norm_num [UINT64_MOD]
  have e5 : (capacityPlan cfg l).totalContigReqd =
      (capacityPlan cfg l).totalReqdFrames * cfg.cells_per_frame := by
    rw [h5, Nat.mod_eq_of_lt hprod]
  refine ⟨by rw [h1]; exact findLongestSequence_eq l, e2, by rw [e3, h1], ?_, e4, e5, ?_⟩
  · rw [e3]; exact Nat.le_add_left 1 _
  · rw [e5]; exact hprod

theorem capacityPlan_arithmetic_witness :
    (capacityPlan ⟨2048, 42949672960, [34, 32, 172], 4582, 170⟩
        [⟨1, 1, 1, List.replicate 4583 0⟩]).frameGroupCount = 2 ∧
    (capacityPlan ⟨2048, 42949672960, [34, 32, 172], 4582, 170⟩
        [⟨1, 1, 1, List.replicate 4583 0⟩]).frameGroupLength = 4585 ∧
    (capacityPlan ⟨2048, 42949672960, [34, 32, 172], 4582, 170⟩
        [⟨1, 1, 1, List.replicate 4583 0⟩]).totalReqdFrames = 9170 ∧
    (9170 : Nat) = 2 * 4585 := by
  have hcv : (⟨1, 1, 1, List.replicate 4583 0⟩ : distribution_t).cellValue =
      List.replicate 4583 0 := rfl
  have hlong : findLongestSequence [(⟨1, 1, 1, List.replicate 4583 0⟩ : distribution_t)] = 4583 := by
    unfold findLongestSequence
    simp only [List.foldl_cons, List.foldl_nil, hcv, List.length_replicate]
    norm_num
  have h := capacityPlan_arithmetic ⟨2048, 42949672960, [34, 32, 172], 4582, 170⟩
    [⟨1, 1, 1, List.replicate 4583 0⟩]
    (by norm_num)
    (by
      intro dr hdr
      rw [List.mem_singleton] at hdr
      subst hdr
      simp only [hcv, List.length_replicate]
      norm_num [UINT32_MOD])
    (by norm_num [UINT32_MOD])
    (by rw [hlong]; norm_num [UINT32_MOD])
    (by rw [hlong]; norm_num [UINT32_MOD])
    (by norm_num [UINT32_MOD])
  obtain ⟨c1, c2, c3, c4, c5, c6, c7⟩ := h
  have hls : (capacityPlan ⟨2048, 42949672960, [34, 32, 172], 4582, 170⟩
      [⟨1, 1, 1, List.replicate 4583 0⟩]).longestSequence = 4583 := by
    rw [c1]
    simp only [List.map_cons, List.map_nil, List.foldr_cons, List.foldr_nil, hcv,
      List.length_replicate]
    norm_num
  have hfgc : (capacityPlan ⟨2048, 42949672960, [34, 32, 172], 4582, 170⟩
      [⟨1, 1, 1, List.replicate 4583 0⟩]).frameGroupCount = 2 := by
    rw [c3, hls]
    norm_num
  have hfgl : (capacityPlan ⟨2048, 42949672960, [34, 32, 172], 4582, 170⟩
      [⟨1, 1, 1, List.replicate 4583 0⟩]).frameGroupLength = 4585 := c2
  refine ⟨hfgc, hfgl, ?_, by norm_num⟩
  rw [c5, hfgc, hfgl]

/-- Configuration of the C3 counterexample: one data frame per group, no
diagnostic frames. -/
def cexCfgC3 : config_t := ⟨2048, 1000000000000, [], 1, 0⟩

/-- Distribution of the C3 counterexample: a single record whose values
sequence has the largest length representable in `uint32_t`. -/
def cexListC3 : List distribution_t := [⟨1, 1, 1, List.replicate 4294967295 0⟩]

/-- Claim C3 as stated is false on the code: with `data_frames = 1` and
`longestSequence = 4294967295`, the claim's formula gives
`frameGroupCount = 4294967295 / 1 + 1 = 4294967296 ≥ 1`, but the planner
computes the sum in `uint32_t`, which wraps to 0 — contradicting both the
stated formula and "always at least 1". -/
theorem capacityPlan_counterexample :
    findLongestSequence cexListC3 / cexCfgC3.data_frames + 1 = 4294967296 ∧
    (capacityPlan cexCfgC3 cexListC3).frameGroupCount = 0 ∧
    ¬ (1 ≤ (capacityPlan cexCfgC3 cexListC3).frameGroupCount) := by
  have hcv : (⟨1, 1, 1, List.replicate 4294967295 0⟩ : distribution_t).cellValue =
      List.replicate 4294967295 0 := rfl
  have hlong : findLongestSequence cexListC3 = 4294967295 := by
    unfold cexListC3 findLongestSequence
    simp only [List.foldl_cons, List.foldl_nil, hcv, List.length_replicate]
    norm_num
  have hdf : cexCfgC3.data_frames = 1 := rfl
  have h1 : findLongestSequence cexListC3 / cexCfgC3.data_frames + 1 = 4294967296 := by
    rw [hlong, hdf]
  have h2 : (capacityPlan cexCfgC3 cexListC3).frameGroupCount = 0 := by
    rw [capacityPlan_frameGroupCount, hlong, hdf]
    norm_num [UINT32_MOD]
  exact ⟨h1, h2, by omega⟩

/-! ### Claim C7 -/

/-- Claim C7 (amended): `verifyDistributionIsValid` aborts fatally when
`cells_per_frame` is not a multiple of `ROW_SIZE` (the check precedes all
capacity arithmetic, unconditionally), and aborts fatally when
`totalFrames > maxFrames` with `maxFrames = contig_size / cells_per_frame`;
in both cases no output is produced (the check precedes the write loop);
otherwise it returns `frameGroupCount` — the capacity part provided that
`contig_size / cells_per_frame` fits `uint32_t`, since the code stores the
`uint64/uint32` quotient into a `uint32_t`, truncating it (see the
counterexample below for the config where the claim's untruncated
`maxFrames` mispredicts the outcome). -/
theorem verifyDistribution_abort_conditions (cfg : config_t) (l : List distribution_t) :
    (cfg.cells_per_frame % ROW_SIZE ≠ 0 →
      verifyDistributionIsValid cfg l = none ∧
      ∀ nolvds, generateOutput cfg nolvds l = none) ∧
    (cfg.cells_per_frame % ROW_SIZE = 0 →
      cfg.contig_size / cfg.cells_per_frame < UINT32_MOD →
      (capacityPlan cfg l).maxFrames = cfg.contig_size / cfg.cells_per_frame ∧
      ((capacityPlan cfg l).totalReqdFrames > cfg.contig_size / cfg.cells_per_frame →
        verifyDistributionIsValid cfg l = none ∧
        ∀ nolvds, generateOutput cfg nolvds l = none) ∧
      ((capacityPlan cfg l).totalReqdFrames ≤ cfg.contig_size / cfg.cells_per_frame →
        verifyDistributionIsValid cfg l = some (capacityPlan cfg l).frameGroupCount)) := by
  constructor
  · intro hmod
    have hv : verifyDistributionIsValid cfg l = none := by
      unfold verifyDistributionIsValid
      rw [if_pos hmod]
    refine ⟨hv, ?_⟩
    intro nolvds
    unfold generateOutput
    rw [hv]
  · intro hmod hfit
    have hmax : (capacityPlan cfg l).maxFrames = cfg.contig_size / cfg.cells_per_frame := by
      have : (capacityPlan cfg l).maxFrames =
          (cfg.contig_size / cfg.cells_per_frame) % UINT32_MOD := rfl
      rw [this, Nat.mod_eq_of_lt hfit]
    refine ⟨hmax, ?_, ?_⟩
    · intro hgt
      have hv : verifyDistributionIsValid cfg l = none := by
        unfold verifyDistributionIsValid
        rw [if_neg (by omega)]
        rw [if_pos (by rw [hmax]; exact hgt)]
      refine ⟨hv, ?_⟩
      intro nolvds
      unfold generateOutput
      rw [hv]
    · intro hle
      unfold verifyDistributionIsValid
      rw [if_neg (by omega)]
      rw [if_neg (by rw [hmax]; omega)]

theorem verifyDistribution_abort_conditions_witness :
    verifyDistributionIsValid ⟨2000, 1000000, [1], 1, 0⟩ [] = none ∧
    generateOutput ⟨2000, 1000000, [1], 1, 0⟩ false [] = none ∧
    verifyDistributionIsValid ⟨2048, 42949672960, [34, 32, 172], 4582, 170⟩ [] = some 1 := by
  have h1 := (verifyDistribution_abort_conditions ⟨2000, 1000000, [1], 1, 0⟩ []).1
    (by norm_num [ROW_SIZE])
  have h2 := (verifyDistribution_abort_conditions
      ⟨2048, 42949672960, [34, 32, 172], 4582, 170⟩ []).2
    (by norm_num [ROW_SIZE]) (by norm_num [UINT32_MOD])
  have h3 := h2.2.2 (by decide)
  refine ⟨h1.1, h1.2 false, ?_⟩
  rw [h3]
  decide

/-- Configuration of the C7 counterexample: `contig_size = 2048 * 2^32`,
so `contig_size / cells_per_frame = 2^32` does not fit `uint32_t`. -/
def cexCfgC7 : config_t := ⟨2048, 8796093022208, [], 1, 0⟩

/-- Claim C7 as stated is false on the code: with
`contig_size = 2048 * 2^32`, `cells_per_frame = 2048`, no diagnostic
values, `data_frames = 1` and an empty distribution list, the claim's
`maxFrames = contig_size / cells_per_frame = 2^32` and
`totalFrames = 1 ≤ maxFrames`, so the claim predicts success; but the code
stores the quotient into `uint32_t maxFrames`, which truncates it to 0, so
`verifyDistributionIsValid` aborts (`exit(1)`) and no output is written. -/
theorem verifyDistribution_truncation_counterexample :
    cexCfgC7.cells_per_frame % ROW_SIZE = 0 ∧
    cexCfgC7.contig_size / cexCfgC7.cells_per_frame = 4294967296 ∧
    (capacityPlan cexCfgC7 []).totalReqdFrames = 1 ∧
    ¬((capacityPlan cexCfgC7 []).totalReqdFrames >
        cexCfgC7.contig_size / cexCfgC7.cells_per_frame) ∧
    (capacityPlan cexCfgC7 []).maxFrames = 0 ∧
    verifyDistributionIsValid cexCfgC7 [] = none ∧
    generateOutput cexCfgC7 false [] = none := by
  refine ⟨by decide, by decide, by decide, by decide, by decide, ?_, ?_⟩
  · decide
  · have hv : verifyDistributionIsValid cexCfgC7 [] = none := by decide
    unfold generateOutput
    rw [hv]

/-! ### The distribution loader (`loadDistribution`)

The per-line validation/resolution logic of `loadDistribution` (after the
external tokenizer has produced `first`, `last`, `step` and the list of
fragment names of a line).  Thrown `runtime_error`s become `Except.error`;
a fatal error aborts the whole load, so the loader returns the records of
the lines processed before the failing line together with the error. -/

inductive loadError where
  | invalidCellNumber (n : Int)
  | undefinedFragment (name : String)

/-- A tokenized distribution line: the three leading integers (0 when
absent, as `atoi` yields on a missing token) and the fragment names after
the `$` delimiter. -/
structure parsedLine where
  first : Int
  last : Int
  step : Int
  names : List String

/-- Lookup in the fragment table (`fragment.find(name)`). -/
def fragLookup (fragment : List (String × List Int)) (nm : String) : Option (List Int) :=
  (fragment.find? (fun e => e.1 == nm)).map (fun e => e.2)

/-- The fragment-resolution loop: for each name in order, fail on the first
name missing from the table, otherwise append that fragment's values
(truncated to `uint8_t`, as the `vector<int>` to `vector<uint8_t>` insert
does) to the record's value sequence. -/
def resolveFragments (fragment : List (String × List Int)) :
    List String → Except loadError (List Nat)
  | [] => Except.ok []
  | nm :: rest =>
    match fragLookup fragment nm with
    | none => Except.error (loadError.undefinedFragment nm)
    | some vals =>
      match resolveFragments fragment rest with
      | Except.error e => Except.error e
      | Except.ok tail => Except.ok (vals.map u8 ++ tail)

/-- Processing of one distribution line: validate `first`, apply the
`last`/`step` defaulting rules, resolve the fragment names. -/
def processDistributionLine (cpf : Nat) (fragment : List (String × List Int))
    (ln : parsedLine) : Except loadError distribution_t :=
  if ln.first < 1 ∨ (cpf : Int) < ln.first then
    Except.error (loadError.invalidCellNumber ln.first)
  else
    let lastv := if ln.last = 0 then ln.first else ln.last
    let stepv := if ln.step = 0 then 1 else ln.step
    match resolveFragments fragment ln.names with
    | Except.error e => Except.error e
    | Except.ok vals => Except.ok ⟨ln.first, lastv, stepv, vals⟩

/-- The line loop of `loadDistribution`: records accumulated until the
first fatal error (which aborts the load; the failing line contributes no
record). -/
def loadDistribution (cpf : Nat) (fragment : List (String × List Int)) :
    List parsedLine → List distribution_t × Option loadError
  | [] => ([], none)
  | ln :: rest =>
    match processDistributionLine cpf fragment ln with
    | Except.error e => ([], some e)
    | Except.ok dr =>
      let res := loadDistribution cpf fragment rest
      (dr :: res.1, res.2)

theorem resolveFragments_error (fragment : List (String × List Int)) :
    ∀ (names : List String) (x : String),
      names.find? (fun nm => (fragLookup fragment nm).isNone) = some x →
      resolveFragments fragment names = Except.error (loadError.undefinedFragment x) := by
  intro names
  induction names with
  | nil => intro x hx; simp [List.find?] at hx
  | cons nm rest ih =>
    intro x hx
    by_cases h : (fragLookup fragment nm).isNone
    · have hxnm : x = nm := by
        rw [List.find?_cons_of_pos] at hx
        · exact (Option.some.inj hx).symm
        · simpa using h
      subst hxnm
      unfold resolveFragments
      rw [Option.isNone_iff_eq_none] at h
      rw [h]
    · rw [List.find?_cons_of_neg] at hx
      · have hrest := ih x hx
        cases hl : fragLookup fragment nm with
        | none => rw [hl] at h; simp at h
        | some vals =>
          unfold resolveFragments
          simp only [hl, hrest]
      · simpa using h

theorem resolveFragments_error_shape (fragment : List (String × List Int)) :
    ∀ (names : List String) (e : loadError),
      resolveFragments fragment names = Except.error e →
      ∃ nm, e = loadError.undefinedFragment nm := by
  intro names
  induction names with
  | nil => intro e he; simp [resolveFragments] at he
  | cons nm rest ih =>
    intro e he
    unfold resolveFragments at he
    cases hl : fragLookup fragment nm with
    | none =>
      rw [hl] at he
      exact ⟨nm, (Except.error.inj he).symm⟩
    | some vals =>
      rw [hl] at he
      cases hr : resolveFragments fragment rest with
      | error e2 =>
        rw [hr] at he
        obtain ⟨nm2, hnm2⟩ := ih e2 hr
        exact ⟨nm2, by rw [← Except.error.inj he, hnm2]⟩
      | ok tail => rw [hr] at he; exact absurd he (by simp)

theorem loadDistribution_cons (cpf : Nat) (fragment : List (String × List Int))
    (ln : parsedLine) (rest : List parsedLine) :
    loadDistribution cpf fragment (ln :: rest) =
      match processDistributionLine cpf fragment ln with
      | Except.error e => ([], some e)
      | Except.ok dr =>
        (dr :: (loadDistribution cpf fragment rest).1,
          (loadDistribution cpf fragment rest).2) := rfl

theorem loadDistribution_append_ok (cpf : Nat) (fragment : List (String × List Int)) :
    ∀ (pre rest : List parsedLine) (ds : List distribution_t),
      loadDistribution cpf fragment pre = (ds, none) →
      loadDistribution cpf fragment (pre ++ rest) =
        (ds ++ (loadDistribution cpf fragment rest).1,
          (loadDistribution cpf fragment rest).2) := by
  intro pre
  induction pre with
  | nil =>
    intro rest ds h
    have hds : ds = [] := by
      have h2 := congrArg Prod.fst h
      simpa [loadDistribution] using h2.symm
    subst hds
    simp
  | cons ln pre ih =>
    intro rest ds h
    rw [loadDistribution_cons] at h
    have hgoal : loadDistribution cpf fragment ((ln :: pre) ++ rest) =
        loadDistribution cpf fragment (ln :: (pre ++ rest)) := rfl
    rw [hgoal, loadDistribution_cons]
    cases hp : processDistributionLine cpf fragment ln with
    | error e =>
      rw [hp] at h
      simp only at h
      exact absurd (congrArg Prod.snd h) (by simp)
    | ok dr =>
      rw [hp] at h
      simp only at h ⊢
      have h2 : loadDistribution cpf fragment pre =
          ((loadDistribution cpf fragment pre).1, none) := by
        have h3 := congrArg Prod.snd h
        simp at h3
        rw [Prod.ext_iff]
        exact ⟨rfl, h3⟩
      have h1 : ds = dr :: (loadDistribution cpf fragment pre).1 := by
        have h4 := congrArg Prod.fst h
        simpa using h4.symm
      rw [ih rest (loadDistribution cpf fragment pre).1 h2, h1]
      simp

/-! ### Claim C8 -/

/-- Claim C8: when a distribution line lists a fragment name absent from
the fragment table, loading fails fatally with an error naming the first
offending fragment, and no `distributionList` entry is added for that
line — the list is exactly what it was after the preceding lines. -/
theorem loadDistribution_unknown_fragment (cpf : Nat)
    (fragment : List (String × List Int)) (pre : List parsedLine)
    (bad : parsedLine) (rest : List parsedLine) (ds : List distribution_t)
    (hpre : loadDistribution cpf fragment pre = (ds, none))
    (hfirst : ¬(bad.first < 1 ∨ (cpf : Int) < bad.first))
    (x : String)
    (hx : bad.names.find? (fun nm => (fragLookup fragment nm).isNone) = some x) :
    processDistributionLine cpf fragment bad =
      Except.error (loadError.undefinedFragment x) ∧
    loadDistribution cpf fragment (pre ++ bad :: rest) =
      (ds, some (loadError.undefinedFragment x)) := by
  have hproc : processDistributionLine cpf fragment bad =
      Except.error (loadError.undefinedFragment x) := by
    unfold processDistributionLine
    rw [if_neg hfirst]
    rw [resolveFragments_error fragment bad.names x hx]
  refine ⟨hproc, ?_⟩
  rw [loadDistribution_append_ok cpf fragment pre (bad :: rest) ds hpre]
  rw [loadDistribution_cons, hproc]
  simp

theorem loadDistribution_unknown_fragment_witness :
    processDistributionLine 2048 [("A", [1, 2])] ⟨1, 0, 0, ["B"]⟩ =
      Except.error (loadError.undefinedFragment "B") ∧
    loadDistribution 2048 [("A", [1, 2])] [⟨1, 0, 0, ["B"]⟩] =
      ([], some (loadError.undefinedFragment "B")) :=
  loadDistribution_unknown_fragment 2048 [("A", [1, 2])] [] ⟨1, 0, 0, ["B"]⟩ [] []
    rfl (by norm_num) "B" rfl

/-! ### Claim C9 -/

/-- Claim C9: for every parsed distribution line, the "invalid cell number"
error — naming the offending number — is raised exactly when the parsed
`firstCell` is below 1 or above `cells_per_frame`; when `firstCell` is in
range, an unspecified `lastCell` (parsed as 0) defaults to `firstCell` and
an unspecified `step` (parsed as 0) defaults to 1 in the stored record. -/
theorem processDistributionLine_cell_validation (cpf : Nat)
    (fragment : List (String × List Int)) (ln : parsedLine) :
    ((ln.first < 1 ∨ (cpf : Int) < ln.first) →
      processDistributionLine cpf fragment ln =
        Except.error (loadError.invalidCellNumber ln.first)) ∧
    (∀ m, processDistributionLine cpf fragment ln =
        Except.error (loadError.invalidCellNumber m) →
      (ln.first < 1 ∨ (cpf : Int) < ln.first) ∧ m = ln.first) ∧
    (∀ dr, processDistributionLine cpf fragment ln = Except.ok dr →
      dr.first = ln.first ∧
      dr.last = (if ln.last = 0 then ln.first else ln.last) ∧
      dr.step = (if ln.step = 0 then 1 else ln.step)) := by
  refine ⟨?_, ?_, ?_⟩
  · intro h
    unfold processDistributionLine
    rw [if_pos h]
  · intro m hm
    unfold processDistributionLine at hm
    by_cases h : ln.first < 1 ∨ (cpf : Int) < ln.first
    · rw [if_pos h] at hm
      exact ⟨h, (loadError.invalidCellNumber.inj (Except.error.inj hm)).symm⟩
    · rw [if_neg h] at hm
      simp only at hm
      cases hr : resolveFragments fragment ln.names with
      | error e =>
        rw [hr] at hm
        obtain ⟨nm, hnm⟩ := resolveFragments_error_shape fragment ln.names e hr
        rw [hnm] at hm
        exact absurd (Except.error.inj hm) (by simp)
      | ok vals =>
        rw [hr] at hm
        exact absurd hm (by simp)
  · intro dr hdr
    unfold processDistributionLine at hdr
    by_cases h : ln.first < 1 ∨ (cpf : Int) < ln.first
    · rw [if_pos h] at hdr
      exact absurd hdr (by simp)
    · rw [if_neg h] at hdr
      simp only at hdr
      cases hr : resolveFragments fragment ln.names with
      | error e => rw [hr] at hdr; exact absurd hdr (by simp)
      | ok vals =>
        rw [hr] at hdr
        have h2 := Except.ok.inj hdr
        rw [← h2]
        exact ⟨rfl, rfl, rfl⟩

theorem processDistributionLine_cell_validation_witness :
    processDistributionLine 2048 [("A", [3])] ⟨5000, 0, 0, ["A"]⟩ =
      Except.error (loadError.invalidCellNumber 5000) ∧
    ∀ dr, processDistributionLine 2048 [("A", [3])] ⟨5, 0, 0, ["A"]⟩ = Except.ok dr →
      dr.first = 5 ∧ dr.last = 5 ∧ dr.step = 1 := by
  constructor
  · exact (processDistributionLine_cell_validation 2048 [("A", [3])]
      ⟨5000, 0, 0, ["A"]⟩).1 (by norm_num)
  · intro dr hdr
    have h := (processDistributionLine_cell_validation 2048 [("A", [3])]
      ⟨5, 0, 0, ["A"]⟩).2.2 dr hdr
    simpa using h
